import Mathlib

/-!
Shallow embedding of the taboo game engine from `src/taboo.rs`.

Strings are modelled as `List Char`; the dataset text, the random
shuffles and the per-tick input snapshot are explicit parameters.
Wall-clock time is modelled as `ℤ` (only ordering and subtraction of instants matter to the engine); fallible operations (`Vec::pop`
followed by `unwrap`) return `Option`.
-/

/-- A card: a target word plus its taboo words (`struct Card`). -/
structure Card where
  word : List Char
  taboo : List (List Char)
deriving DecidableEq

/-- Rust `str::split(sep)` on a single separator character: always returns
at least one (possibly empty) field. -/
def splitChar (sep : Char) : List Char → List (List Char)
  | [] => [[]]
  | c :: rest =>
    match splitChar sep rest with
    | [] => [[]]
    | h :: t => if c = sep then [] :: h :: t else (c :: h) :: t

/-- Rust `str::trim`: drop leading and trailing whitespace. -/
def trimChars (l : List Char) : List Char :=
  ((l.dropWhile Char.isWhitespace).reverse.dropWhile Char.isWhitespace).reverse

/-- The line-parsing pipeline at the top of `GameState::new`: split the text
into lines, trim, drop blank lines, and split each line on commas into the
word and its taboo list (each field trimmed). -/
def parseCards (text : List Char) : List Card :=
  (((splitChar '\n' text).map trimChars).filter (fun l => !l.isEmpty)).map
    (fun line =>
      let ws := (splitChar ',' line).map trimChars
      { word := ws.headI, taboo := ws.tail })

/-- Fallible variant of `parseCards` mirroring the `words.next().unwrap()`
call in `GameState::new`: extracting the word field uses `head?`, and a
missing field would abort the whole load with `none`. -/
def parseCardsOpt (text : List Char) : Option (List Card) :=
  (((splitChar '\n' text).map trimChars).filter (fun l => !l.isEmpty)).mapM
    (fun line =>
      let ws := (splitChar ',' line).map trimChars
      match ws.head? with
      | none => none
      | some w => some { word := w, taboo := ws.tail })

/-- A load diagnostic (the `println!` messages in `GameState::new`):
either a duplicate word or a multi-word/hyphenated word was dropped. -/
inductive Diag where
  | duplicate (word : List Char)
  | multiWord (word : List Char)
deriving DecidableEq

/-- The deduplication loop of `GameState::new`: lines whose word was already
inserted are dropped with a duplicate diagnostic; lines whose word contains a
space or hyphen are dropped with a multi-word diagnostic; all other lines are
inserted (first occurrence wins).  The `HashMap` keyed by word is modelled as
the accumulator list itself (membership by word). -/
def dedupCardsAux : List Card → List Card → List Diag → List Card × List Diag
  | [], acc, diags => (acc, diags)
  | c :: rest, acc, diags =>
    if acc.any (fun d => d.word = c.word) then
      dedupCardsAux rest acc (diags ++ [Diag.duplicate c.word])
    else if c.word.contains ' ' || c.word.contains '-' then
      dedupCardsAux rest acc (diags ++ [Diag.multiWord c.word])
    else
      dedupCardsAux rest (acc ++ [c]) diags

/-- Deduplicate a parsed card list, returning the pool and the diagnostics. -/
def dedupCards (l : List Card) : List Card × List Diag :=
  dedupCardsAux l [] []

/-- The deck state (`struct GameState`). -/
structure GameState where
  num_players : Nat
  teams : Bool
  deck : List Card
  discards : List Card
  won_cards : List (List Card)
  all_cards : List Card
deriving DecidableEq

/-- `GameState::new`: parse and deduplicate the dataset, shuffle (the shuffle
is the explicit parameter `σ`), and set up the piles.  The shuffled pool is
retained in `all_cards` and also becomes the initial draw pile. -/
def GameState.new (σ : List Card → List Card) (text : List Char)
    (num_players : Nat) (teams : Bool) : GameState :=
  let lines := σ (dedupCards (parseCards text)).1
  { num_players := num_players
    teams := teams
    deck := lines
    discards := []
    won_cards := List.replicate num_players []
    all_cards := lines }

/-- `GameState::deck_size`. -/
def GameState.deck_size (gs : GameState) : Nat :=
  gs.deck.length + gs.discards.length

/-- `GameState::draw_card`: if the draw pile is empty, the reshuffled discard
pile is swapped in (leaving the discards empty); if the draw pile is still
empty, it is refilled from the retained full pool, reshuffled.  The final
`pop().unwrap()` is modelled by `getLast?`/`dropLast` returning `Option`. -/
def GameState.draw_card (gs : GameState) (σ : List Card → List Card) :
    Option (Card × GameState) :=
  let p := if gs.deck.isEmpty then (σ gs.discards, gs.deck) else (gs.deck, gs.discards)
  let deck2 := if p.1.isEmpty then σ gs.all_cards else p.1
  match deck2.getLast? with
  | none => none
  | some c => some (c, { gs with deck := deck2.dropLast, discards := p.2 })

/-- `enum CardResult`. -/
inductive CardResult where
  | Won
  | Discarded
  | Timeout
deriving DecidableEq

/-- `CardResult::won`. -/
def CardResult.won : CardResult → Bool
  | .Won => true
  | _ => false

/-- `CardResult::discarded`. -/
def CardResult.discarded : CardResult → Bool
  | .Discarded => true
  | _ => false

/-- `enum TurnState`; `start_time` is a wall-clock instant, modelled as an integer time-stamp since only comparisons and differences of instants are consumed. -/
inductive TurnState where
  | ReadyingUp
  | Playing (start_time : ℤ) (card : Card) (results : List (Card × CardResult))
  | TurnEnded (results : List (Card × CardResult)) (showing : Nat)
deriving DecidableEq

/-- `enum CurrentTurn`. -/
inductive CurrentTurn where
  | Team (team : Nat)
  | Player (asker : Nat) (askee : Nat)
deriving DecidableEq

/-- `CurrentTurn::next`: team rotation, or the round-robin advance over
ordered asker/askee pairs. -/
def CurrentTurn.next (t : CurrentTurn) (num_players : Nat) : CurrentTurn :=
  match t with
  | .Team team => if team + 1 ≥ num_players then .Team 0 else .Team (team + 1)
  | .Player asker askee =>
    let delta := if askee < asker then askee + num_players - asker else askee - asker
    let asker2 := asker + 1
    let askee2 := askee + 1
    let askee3 := if askee2 ≥ num_players then 0 else askee2
    if asker2 ≥ num_players then
      .Player 0 (if delta + 1 = num_players then 1 else delta + 1)
    else
      .Player asker2 askee3

/-- `enum TabooApp`. -/
inductive TabooApp where
  | Menu (players : Nat) (teams : Bool)
  | InGame (game : GameState) (turn : TurnState) (current_turn : CurrentTurn)
deriving DecidableEq

/-- `impl Default for TabooApp`. -/
def TabooApp.default : TabooApp := .Menu 2 true

/-- The per-tick input snapshot restricted to the `just_pressed` facts the
engine consumes. -/
structure Input where
  povUp : Bool := false
  povDown : Bool := false
  povLeft : Bool := false
  povRight : Bool := false
  menuL : Bool := false
  menuR : Bool := false
  actionA : Bool := false
  actionB : Bool := false
deriving DecidableEq

/-- `game.won_cards[i].push(card)`. -/
def pushWon (w : List (List Card)) (i : Nat) (c : Card) : List (List Card) :=
  w.set i (w.getD i [] ++ [c])

/-- One iteration of the confirm-time crediting loop in
`TabooApp::update` (`TurnEnded`, `ActionA`): a `Won` card goes to the active
team's pile, or to both the asker's and the askee's piles in player mode;
any other outcome goes to the discard pile. -/
def creditOne (ct : CurrentTurn) (gs : GameState) (p : Card × CardResult) :
    GameState :=
  if p.2.won then
    match ct with
    | .Team team => { gs with won_cards := pushWon gs.won_cards team p.1 }
    | .Player asker askee =>
      { gs with won_cards := pushWon (pushWon gs.won_cards asker p.1) askee p.1 }
  else
    { gs with discards := gs.discards ++ [p.1] }

/-- The full confirm-time crediting loop (`for (card, card_result) in
results.drain(..)`). -/
def creditResults (ct : CurrentTurn) (gs : GameState)
    (results : List (Card × CardResult)) : GameState :=
  results.foldl (creditOne ct) gs

/-- `TabooApp::update`, restricted to its state-transition behaviour (the
draw calls are ignored).  `σ` supplies every shuffle of the tick, `text` is
the static dataset, `now` the wall-clock instant of the tick.  `none` models
a panic (the `pop().unwrap()` inside `draw_card`). -/
def TabooApp.update (σ : List Card → List Card) (text : List Char)
    (input : Input) (now : ℤ) : TabooApp → Option TabooApp
  | .Menu players teams =>
    let p1 := if input.povUp then players + 1 else players
    let p2 := if input.povDown then (if p1 - 1 < 2 then 2 else p1 - 1) else p1
    let t2 := if input.menuL then !teams else teams
    if input.menuR then
      some (.InGame (GameState.new σ text p2 t2) .ReadyingUp
        (if t2 then .Team 0 else .Player 0 1))
    else
      some (.Menu p2 t2)
  | .InGame game turn current_turn =>
    match turn with
    | .ReadyingUp =>
      if input.actionA then
        match game.draw_card σ with
        | none => none
        | some (c, game2) =>
          if input.actionB then
            some (.Menu game2.num_players game2.teams)
          else
            some (.InGame game2 (.Playing now c []) current_turn)
      else if input.actionB then
        some (.Menu game.num_players game.teams)
      else
        some (.InGame game .ReadyingUp current_turn)
    | .Playing start_time card results =>
      let remaining : ℤ := 60 - (now - start_time)
      if decide (remaining < 0) || input.menuR then
        let cards2 := results ++ [(card, .Timeout)]
        some (.InGame game (.TurnEnded cards2 (cards2.length - 1)) current_turn)
      else if input.actionA then
        match game.draw_card σ with
        | none => none
        | some (next_card, game2) =>
          some (.InGame game2
            (.Playing start_time next_card (results ++ [(card, .Won)])) current_turn)
      else if input.actionB then
        match game.draw_card σ with
        | none => none
        | some (next_card, game2) =>
          some (.InGame game2
            (.Playing start_time next_card (results ++ [(card, .Discarded)])) current_turn)
      else
        some (.InGame game (.Playing start_time card results) current_turn)
    | .TurnEnded results showing =>
      let s1 := if input.povRight then
          (if showing + 1 ≥ results.length then results.length - 1 else showing + 1)
        else showing
      let s2 := if input.povLeft then s1 - 1 else s1
      if input.actionA then
        let game2 := creditResults current_turn game results
        some (.InGame game2 .ReadyingUp (current_turn.next game2.num_players))
      else
        some (.InGame game (.TurnEnded results s2) current_turn)

/-- Iterated ticks: run `update` `k` times with a fixed input and shuffle. -/
def TabooApp.updateN (σ : List Card → List Card) (text : List Char)
    (input : Input) (now : ℤ) : Nat → TabooApp → Option TabooApp
  | 0, a => some a
  | k + 1, a => (TabooApp.update σ text input now a).bind (TabooApp.updateN σ text input now k)

/-- States reachable from the default menu by any sequence of ticks, with
arbitrary shuffles, inputs and tick times. -/
inductive Reach (text : List Char) : TabooApp → Prop
  | init : Reach text TabooApp.default
  | step {a a' : TabooApp} (σ : List Card → List Card) (input : Input) (now : ℤ) :
      Reach text a → TabooApp.update σ text input now a = some a' → Reach text a'

/-- The cards currently held by the turn itself: the in-play card and the
cards of the in-turn history. -/
def inPlayCards : TurnState → List Card
  | .ReadyingUp => []
  | .Playing _ card results => card :: results.map Prod.fst
  | .TurnEnded results _ => results.map Prod.fst

/-- All cards held by the engine: draw pile, discard pile, won piles, and
the cards of the current turn. -/
def containers (gs : GameState) (t : TurnState) : List Card :=
  gs.deck ++ gs.discards ++ gs.won_cards.flatten ++ inPlayCards t

/-- Modelled from the spec's card-conservation claim, word for word: the
draw pile, discard pile, won piles and the in-play card (only) sum to the
pool size, and no card occurs in more than one of those containers. -/
def specCardConservation (gs : GameState) (t : TurnState) : Bool :=
  let inPlay : List Card := match t with
    | .Playing _ card _ => [card]
    | _ => []
  (gs.deck.length + gs.discards.length + (gs.won_cards.map List.length).sum
      + inPlay.length == gs.all_cards.length)
    && decide (gs.deck ++ gs.discards ++ gs.won_cards.flatten ++ inPlay).Nodup

/-- Lift `specCardConservation` to whole app states (menu states hold no
cards, so the claim is vacuous there). -/
def specConservationAt : TabooApp → Bool
  | .Menu _ _ => true
  | .InGame gs t _ => specCardConservation gs t

/-! ### Scheduler iteration -/

/-- Advance the turn `k` times with `num_players = N` (`CurrentTurn::next`
applied repeatedly, as in `test_turn_increment`). -/
def iterTurn (N k : Nat) (t : CurrentTurn) : CurrentTurn :=
  (fun s => CurrentTurn.next s N)^[k] t

lemma iterTurn_succ (N k : Nat) (t : CurrentTurn) :
    iterTurn N (k + 1) t = CurrentTurn.next (iterTurn N k t) N := by
  unfold iterTurn
  rw [Function.iterate_succ_apply']

lemma team_iter (N : Nat) (hN : 1 ≤ N) : ∀ k, k < N → iterTurn N k (.Team 0) = .Team k := by
  intro k
  induction k with
  | zero => intro _; rfl
  | succ k ih =>
    intro hk
    rw [iterTurn_succ, ih (by omega)]
    simp only [CurrentTurn.next]
    rw [if_neg (by omega)]

lemma team_iter_cycle (N : Nat) (hN : 1 ≤ N) : iterTurn N N (.Team 0) = .Team 0 := by
  have h : N = (N - 1) + 1 := by omega
  nth_rewrite 2 [h]
  rw [iterTurn_succ, team_iter N hN (N - 1) (by omega)]
  simp only [CurrentTurn.next]
  rw [if_pos (by omega)]

/-- One `next` inside a gap block: the asker does not wrap. -/
lemma step_in_block (N g a : Nat) (hg1 : 1 ≤ g) (hgN : g < N) (haN : a + 1 < N) :
    CurrentTurn.next (.Player a (if a + g < N then a + g else a + g - N)) N
      = .Player (a + 1) (if (a + 1) + g < N then (a + 1) + g else (a + 1) + g - N) := by
  simp only [CurrentTurn.next]
  split_ifs <;> simp_all <;> omega

/-- One `next` at the end of a gap block `g` with `g + 1 < N`: the asker
wraps and the gap advances. -/
lemma step_wrap (N g : Nat) (hg1 : 1 ≤ g) (hgN : g + 1 < N) :
    CurrentTurn.next (.Player (N - 1) (if (N - 1) + g < N then (N - 1) + g else (N - 1) + g - N)) N
      = .Player 0 (g + 1) := by
  simp only [CurrentTurn.next]
  split_ifs <;> simp_all <;> omega

/-- One `next` at the very end of the last gap block: back to `(0, 1)`. -/
lemma step_wrap_last (N : Nat) (hN : 2 ≤ N) :
    CurrentTurn.next
      (.Player (N - 1) (if (N - 1) + (N - 1) < N then (N - 1) + (N - 1) else (N - 1) + (N - 1) - N)) N
      = .Player 0 1 := by
  simp only [CurrentTurn.next]
  split_ifs <;> simp_all <;> omega

/-- Position `N * gp + a` of the round-robin (block `gp`, asker `a`). -/
lemma iter_block (N : Nat) (hN : 2 ≤ N) :
    ∀ gp, gp + 1 < N → ∀ a, a < N →
      iterTurn N (N * gp + a) (.Player 0 1)
        = .Player a (if a + gp + 1 < N then a + gp + 1 else a + gp + 1 - N) := by
  intro gp
  induction gp with
  | zero =>
    intro _ a
    induction a with
    | zero => intro _; rw [if_pos (by omega)]; rfl
    | succ a iha =>
      intro ha
      have e : N * 0 + (a + 1) = (N * 0 + a) + 1 := by omega
      rw [e, iterTurn_succ, iha (by omega)]
      have := step_in_block N 1 a (by omega) (by omega) (by omega)
      simpa using this
  | succ gp ihg =>
    intro hgp a
    induction a with
    | zero =>
      intro _
      have e : N * (gp + 1) + 0 = (N * gp + (N - 1)) + 1 := by
        rw [Nat.mul_succ]; omega
      rw [e, iterTurn_succ, ihg (by omega) (N - 1) (by omega)]
      have h2 : (N - 1) + gp + 1 = (N - 1) + (gp + 1) := by omega
      rw [h2]
      have := step_wrap N (gp + 1) (by omega) (by omega)
      rw [this, if_pos]
      · congr 1
        omega
      · omega
    | succ a iha =>
      intro ha
      have e : N * (gp + 1) + (a + 1) = (N * (gp + 1) + a) + 1 := by omega
      rw [e, iterTurn_succ, iha (by omega)]
      have h2 : a + (gp + 1) + 1 = a + (gp + 2) := by omega
      have h3 : (a + 1) + (gp + 1) + 1 = (a + 1) + (gp + 2) := by omega
      rw [h2, h3]
      have := step_in_block N (gp + 2) a (by omega) (by omega) (by omega)
      rw [show a + (gp + 2) = a + (gp + 2) from rfl] at this
      exact this

lemma player_iter_cycle (N : Nat) (hN : 2 ≤ N) :
    iterTurn N (N * (N - 1)) (.Player 0 1) = .Player 0 1 := by
  have e : N * (N - 1) = (N * (N - 2) + (N - 1)) + 1 := by
    have h1 : N - 1 = (N - 2) + 1 := by omega
    rw [h1, Nat.mul_succ]
    omega
  rw [e, iterTurn_succ, iter_block N hN (N - 2) (by omega) (N - 1) (by omega)]
  have h2 : (N - 1) + (N - 2) + 1 = (N - 1) + (N - 1) := by omega
  rw [h2]
  exact step_wrap_last N hN

lemma player_pos_lt (N gp a : Nat) (h1 : gp + 1 < N) (h2 : a < N) :
    N * gp + a < N * (N - 1) :=
  calc N * gp + a < N * gp + N := by omega
    _ = N * (gp + 1) := by rw [Nat.mul_succ]
    _ ≤ N * (N - 1) := Nat.mul_le_mul_left N (by omega)

lemma team_complete (N : Nat) (hN : 1 ≤ N) (i : Nat) (hi : i < N) :
    ∃! k, k < N ∧ iterTurn N k (.Team 0) = .Team i := by
  refine ⟨i, ⟨hi, team_iter N hN i hi⟩, ?_⟩
  rintro k' ⟨hk', hit⟩
  rw [team_iter N hN k' hk'] at hit
  injection hit

lemma player_complete (N : Nat) (hN : 2 ≤ N) (a b : Nat)
    (ha : a < N) (hb : b < N) (hab : a ≠ b) :
    ∃! k, k < N * (N - 1) ∧ iterTurn N k (.Player 0 1) = .Player a b := by
  obtain ⟨gp, hgp1, hgpb⟩ :
      ∃ gp, gp + 1 < N ∧ (if a + gp + 1 < N then a + gp + 1 else a + gp + 1 - N) = b := by
    by_cases h : a < b
    · exact ⟨b - a - 1, by omega, by split_ifs <;> omega⟩
    · exact ⟨b + N - a - 1, by omega, by split_ifs <;> omega⟩
  refine ⟨N * gp + a, ⟨player_pos_lt N gp a hgp1 ha, ?_⟩, ?_⟩
  · rw [iter_block N hN gp hgp1 a ha, hgpb]
  · rintro k' ⟨hk', hit⟩
    have hd := Nat.div_add_mod k' N
    have hdiv : k' / N < N - 1 := by
      rw [Nat.div_lt_iff_lt_mul (by omega : 0 < N)]
      calc k' < N * (N - 1) := hk'
        _ = (N - 1) * N := Nat.mul_comm N (N - 1)
    have hmod : k' % N < N := Nat.mod_lt _ (by omega)
    rw [← hd, iter_block N hN (k' / N) (by omega) (k' % N) hmod] at hit
    injection hit with h1 h2
    rw [h1] at h2
    generalize hgen : k' / N = q at h2 hdiv hd
    have hq : q = gp := by
      split_ifs at h2 hgpb <;> omega
    rw [hq, h1] at hd
    exact hd.symm

/-- Claim C2 (scheduler cycles): for every `N ≥ 2`, advancing `Team(0)` `N`
times returns to `Team(0)` after visiting each team index in `[0,N)` exactly
once; advancing `Player{asker:0, askee:1}` exactly `N*(N-1)` times returns
to `(0,1)`, visiting every ordered pair `(a,b)` with `a ≠ b`, `a,b ∈ [0,N)`
exactly once; and the concrete `N = 4` iteration from `(0,1)` is the
round-robin order recorded in `test_turn_increment`. -/
theorem scheduler_cycles :
    (∀ N, 2 ≤ N →
      ((∀ k, k < N → iterTurn N k (.Team 0) = .Team k) ∧
        iterTurn N N (.Team 0) = .Team 0 ∧
        (∀ i, i < N → ∃! k, k < N ∧ iterTurn N k (.Team 0) = .Team i)) ∧
      (iterTurn N (N * (N - 1)) (.Player 0 1) = .Player 0 1 ∧
        (∀ a b, a < N → b < N → a ≠ b →
          ∃! k, k < N * (N - 1) ∧ iterTurn N k (.Player 0 1) = .Player a b))) ∧
    (List.range 12).map (fun k => iterTurn 4 k (.Player 0 1)) =
      [.Player 0 1, .Player 1 2, .Player 2 3, .Player 3 0,
       .Player 0 2, .Player 1 3, .Player 2 0, .Player 3 1,
       .Player 0 3, .Player 1 0, .Player 2 1, .Player 3 2] := by
  constructor
  · intro N hN
    refine ⟨⟨team_iter N (by omega), team_iter_cycle N (by omega), ?_⟩,
      player_iter_cycle N hN, player_complete N hN⟩
    exact team_complete N (by omega)
  · decide

/-- Witness for C2 at concrete sizes. -/
theorem scheduler_cycles_witness :
    iterTurn 4 12 (.Player 0 1) = .Player 0 1 ∧ iterTurn 3 3 (.Team 0) = .Team 0 :=
  ⟨((scheduler_cycles.1 4 (by decide)).2).1, ((scheduler_cycles.1 3 (by decide)).1).2.1⟩

/-! ### Confirm-time crediting -/

lemma getD_set_self : ∀ (w : List (List Card)) (i : Nat) (x : List Card),
    i < w.length → (w.set i x).getD i [] = x := by
  intro w
  induction w with
  | nil => intro i x h; simp at h
  | cons y ys ih =>
    intro i x h
    cases i with
    | zero => simp
    | succ i => simpa using ih i x (by simpa using h)

lemma getD_set_ne : ∀ (w : List (List Card)) (i j : Nat) (x : List Card),
    i ≠ j → (w.set i x).getD j [] = w.getD j [] := by
  intro w
  induction w with
  | nil => intro i j x _; simp
  | cons y ys ih =>
    intro i j x hij
    cases i with
    | zero =>
      cases j with
      | zero => exact absurd rfl hij
      | succ j => simp
    | succ i =>
      cases j with
      | zero => simp
      | succ j => simpa using ih i j x (by omega)

lemma pushWon_length (w : List (List Card)) (i : Nat) (c : Card) :
    (pushWon w i c).length = w.length := by
  simp [pushWon]

lemma pushWon_getD_self (w : List (List Card)) (i : Nat) (c : Card) (h : i < w.length) :
    (pushWon w i c).getD i [] = w.getD i [] ++ [c] :=
  getD_set_self w i _ h

lemma pushWon_getD_ne (w : List (List Card)) (i j : Nat) (c : Card) (h : i ≠ j) :
    (pushWon w i c).getD j [] = w.getD j [] :=
  getD_set_ne w i j _ h

lemma creditOne_num_players (ct : CurrentTurn) (gs : GameState) (p : Card × CardResult) :
    (creditOne ct gs p).num_players = gs.num_players := by
  cases hw : p.2.won <;> cases ct <;> simp [creditOne, hw]

lemma creditOne_deck (ct : CurrentTurn) (gs : GameState) (p : Card × CardResult) :
    (creditOne ct gs p).deck = gs.deck := by
  cases hw : p.2.won <;> cases ct <;> simp [creditOne, hw]

lemma creditOne_all_cards (ct : CurrentTurn) (gs : GameState) (p : Card × CardResult) :
    (creditOne ct gs p).all_cards = gs.all_cards := by
  cases hw : p.2.won <;> cases ct <;> simp [creditOne, hw]

lemma creditOne_teams (ct : CurrentTurn) (gs : GameState) (p : Card × CardResult) :
    (creditOne ct gs p).teams = gs.teams := by
  cases hw : p.2.won <;> cases ct <;> simp [creditOne, hw]

lemma creditOne_won_length (ct : CurrentTurn) (gs : GameState) (p : Card × CardResult) :
    (creditOne ct gs p).won_cards.length = gs.won_cards.length := by
  cases hw : p.2.won <;> cases ct <;> simp [creditOne, hw, pushWon_length]

lemma creditResults_cons (ct : CurrentTurn) (gs : GameState) (p : Card × CardResult)
    (rs : List (Card × CardResult)) :
    creditResults ct gs (p :: rs) = creditResults ct (creditOne ct gs p) rs := rfl

lemma creditResults_num_players (ct : CurrentTurn) :
    ∀ (rs : List (Card × CardResult)) (gs : GameState),
      (creditResults ct gs rs).num_players = gs.num_players := by
  intro rs
  induction rs with
  | nil => intro gs; rfl
  | cons p rs ih =>
    intro gs
    rw [creditResults_cons, ih, creditOne_num_players]

lemma creditResults_deck (ct : CurrentTurn) :
    ∀ (rs : List (Card × CardResult)) (gs : GameState),
      (creditResults ct gs rs).deck = gs.deck := by
  intro rs
  induction rs with
  | nil => intro gs; rfl
  | cons p rs ih =>
    intro gs
    rw [creditResults_cons, ih, creditOne_deck]

lemma creditResults_all_cards (ct : CurrentTurn) :
    ∀ (rs : List (Card × CardResult)) (gs : GameState),
      (creditResults ct gs rs).all_cards = gs.all_cards := by
  intro rs
  induction rs with
  | nil => intro gs; rfl
  | cons p rs ih =>
    intro gs
    rw [creditResults_cons, ih, creditOne_all_cards]

lemma creditResults_teams (ct : CurrentTurn) :
    ∀ (rs : List (Card × CardResult)) (gs : GameState),
      (creditResults ct gs rs).teams = gs.teams := by
  intro rs
  induction rs with
  | nil => intro gs; rfl
  | cons p rs ih =>
    intro gs
    rw [creditResults_cons, ih, creditOne_teams]

lemma creditResults_won_length (ct : CurrentTurn) :
    ∀ (rs : List (Card × CardResult)) (gs : GameState),
      (creditResults ct gs rs).won_cards.length = gs.won_cards.length := by
  intro rs
  induction rs with
  | nil => intro gs; rfl
  | cons p rs ih =>
    intro gs
    rw [creditResults_cons, ih, creditOne_won_length]

lemma creditResults_discards (ct : CurrentTurn) :
    ∀ (rs : List (Card × CardResult)) (gs : GameState),
      (creditResults ct gs rs).discards
        = gs.discards ++ (rs.filter (fun p => !p.2.won)).map Prod.fst := by
  intro rs
  induction rs with
  | nil => intro gs; simp [creditResults]
  | cons p rs ih =>
    intro gs
    rw [creditResults_cons, ih]
    cases hw : p.2.won <;> cases ct <;>
      simp [creditOne, hw, List.filter_cons]

lemma credit_team_getD (t j : Nat) :
    ∀ (rs : List (Card × CardResult)) (gs : GameState), t < gs.won_cards.length →
      (creditResults (.Team t) gs rs).won_cards.getD j []
        = gs.won_cards.getD j []
          ++ (if j = t then (rs.filter (fun p => p.2.won)).map Prod.fst else []) := by
  intro rs
  induction rs with
  | nil => intro gs _; by_cases h : j = t <;> simp [creditResults, h]
  | cons p rs ih =>
    intro gs ht
    rw [creditResults_cons, ih _ (by rw [creditOne_won_length]; exact ht)]
    cases hw : p.2.won
    · simp only [creditOne, hw, Bool.false_eq_true, if_false, List.filter_cons, hw]
    · simp only [creditOne, hw, if_true, List.filter_cons, hw]
      by_cases h : j = t
      · subst h
        rw [pushWon_getD_self _ _ _ ht]
        simp
      · rw [pushWon_getD_ne _ _ _ _ (by omega)]
        simp [h]

lemma credit_player_getD (a b j : Nat) (hab : a ≠ b) :
    ∀ (rs : List (Card × CardResult)) (gs : GameState),
      a < gs.won_cards.length → b < gs.won_cards.length →
      (creditResults (.Player a b) gs rs).won_cards.getD j []
        = gs.won_cards.getD j []
          ++ (if j = a ∨ j = b then (rs.filter (fun p => p.2.won)).map Prod.fst else []) := by
  intro rs
  induction rs with
  | nil => intro gs _ _; by_cases h : j = a ∨ j = b <;> simp [creditResults, h]
  | cons p rs ih =>
    intro gs ha hb
    rw [creditResults_cons,
      ih _ (by rw [creditOne_won_length]; exact ha) (by rw [creditOne_won_length]; exact hb)]
    cases hw : p.2.won
    · simp only [creditOne, hw, Bool.false_eq_true, if_false, List.filter_cons, hw]
    · simp only [creditOne, hw, if_true, List.filter_cons, hw]
      by_cases hja : j = a
      · subst hja
        rw [pushWon_getD_ne _ _ _ _ (by omega), pushWon_getD_self _ _ _ ha]
        simp [hab]
      · by_cases hjb : j = b
        · subst hjb
          rw [pushWon_getD_self _ _ _ (by rw [pushWon_length]; exact hb),
            pushWon_getD_ne _ _ _ _ (by omega)]
          simp
        · rw [pushWon_getD_ne _ _ _ _ (by omega), pushWon_getD_ne _ _ _ _ (by omega)]
          simp [hja, hjb]

/-- Claim C3 (cooperative crediting): when the confirm action fires in the
`TurnEnded` state, every history entry with outcome `Won` is pushed onto
both `won_piles[asker]` and `won_piles[askee]` (one card each) in player
mode, and only onto `won_piles[t]` in team mode; every entry with a
non-`Won` outcome is pushed onto the discard pile. -/
theorem cooperative_crediting (gs : GameState) (rs : List (Card × CardResult)) :
    (∀ a b, a ≠ b → a < gs.won_cards.length → b < gs.won_cards.length →
      (creditResults (.Player a b) gs rs).won_cards.getD a []
          = gs.won_cards.getD a [] ++ (rs.filter (fun p => p.2.won)).map Prod.fst ∧
      (creditResults (.Player a b) gs rs).won_cards.getD b []
          = gs.won_cards.getD b [] ++ (rs.filter (fun p => p.2.won)).map Prod.fst ∧
      (∀ j, j ≠ a → j ≠ b →
        (creditResults (.Player a b) gs rs).won_cards.getD j []
          = gs.won_cards.getD j [])) ∧
    (∀ t, t < gs.won_cards.length →
      (creditResults (.Team t) gs rs).won_cards.getD t []
          = gs.won_cards.getD t [] ++ (rs.filter (fun p => p.2.won)).map Prod.fst ∧
      (∀ j, j ≠ t →
        (creditResults (.Team t) gs rs).won_cards.getD j []
          = gs.won_cards.getD j [])) ∧
    (∀ ct, (creditResults ct gs rs).discards
        = gs.discards ++ (rs.filter (fun p => !p.2.won)).map Prod.fst) := by
  refine ⟨?_, ?_, fun ct => creditResults_discards ct rs gs⟩
  · intro a b hab ha hb
    refine ⟨?_, ?_, ?_⟩
    · rw [credit_player_getD a b a hab rs gs ha hb]
      simp
    · rw [credit_player_getD a b b hab rs gs ha hb]
      simp
    · intro j hja hjb
      rw [credit_player_getD a b j hab rs gs ha hb]
      simp [hja, hjb]
  · intro t ht
    refine ⟨?_, ?_⟩
    · rw [credit_team_getD t t rs gs ht]
      simp
    · intro j hj
      rw [credit_team_getD t j rs gs ht]
      simp [hj]

/-- Two sample cards used by concrete witnesses. -/
def cardA : Card := { word := ['a'], taboo := [] }

/-- A second sample card used by concrete witnesses. -/
def cardB : Card := { word := ['b'], taboo := [] }

/-- A sample deck state used by concrete witnesses. -/
def gsSample : GameState :=
  { num_players := 2, teams := false, deck := [], discards := [],
    won_cards := [[], []], all_cards := [cardA, cardB] }

/-- Witness for C3 at a concrete state: one won card, one timed-out card. -/
theorem cooperative_crediting_witness :
    (creditResults (.Player 0 1) gsSample [(cardA, .Won), (cardB, .Timeout)]).won_cards.getD 0 []
        = gsSample.won_cards.getD 0 []
          ++ (([(cardA, CardResult.Won), (cardB, CardResult.Timeout)].filter
                (fun p => p.2.won)).map Prod.fst) ∧
    (creditResults (.Player 0 1) gsSample [(cardA, .Won), (cardB, .Timeout)]).discards
        = gsSample.discards
          ++ (([(cardA, CardResult.Won), (cardB, CardResult.Timeout)].filter
                (fun p => !p.2.won)).map Prod.fst) := by
  have h := cooperative_crediting gsSample [(cardA, .Won), (cardB, .Timeout)]
  exact ⟨(h.1 0 1 (by decide) (by decide) (by decide)).1, h.2.2 (.Player 0 1)⟩

/-! ### Drawing cards -/

/-- Specification of `draw_card` in the no-refill case: for any shuffle that
permutes its input, if the draw and discard piles are not both empty, the
draw succeeds, the drawn card plus the remaining two piles permute the old
two piles, and every other field is untouched. -/
lemma draw_card_spec (σ : List Card → List Card) (hσ : ∀ l, (σ l).Perm l)
    (gs : GameState) (h : gs.deck ≠ [] ∨ gs.discards ≠ []) :
    ∃ c gs', gs.draw_card σ = some (c, gs') ∧
      (c :: (gs'.deck ++ gs'.discards)).Perm (gs.deck ++ gs.discards) ∧
      gs'.won_cards = gs.won_cards ∧ gs'.all_cards = gs.all_cards ∧
      gs'.num_players = gs.num_players ∧ gs'.teams = gs.teams := by
  by_cases hd : gs.deck = []
  · have hds : gs.discards ≠ [] := by
      rcases h with h | h
      · exact absurd hd h
      · exact h
    have hσne : σ gs.discards ≠ [] := by
      apply List.ne_nil_of_length_pos
      rw [(hσ gs.discards).length_eq]
      exact List.length_pos.mpr hds
    refine ⟨(σ gs.discards).getLast hσne,
      { gs with deck := (σ gs.discards).dropLast, discards := gs.deck }, ?_, ?_, rfl, rfl, rfl, rfl⟩
    · unfold GameState.draw_card
      simp only [hd, List.isEmpty_nil, if_pos, List.isEmpty_eq_true]
      rw [if_neg hσne, List.getLast?_eq_getLast _ hσne]
    · rw [hd]
      simp only [List.append_nil, List.nil_append]
      have h1 : ((σ gs.discards).getLast hσne :: (σ gs.discards).dropLast).Perm
          ((σ gs.discards).dropLast ++ [(σ gs.discards).getLast hσne]) :=
        (List.perm_append_singleton _ _).symm
      rw [List.dropLast_append_getLast hσne] at h1
      exact h1.trans (hσ gs.discards)
  · refine ⟨gs.deck.getLast hd, { gs with deck := gs.deck.dropLast }, ?_, ?_, rfl, rfl, rfl, rfl⟩
    · unfold GameState.draw_card
      simp only [List.isEmpty_eq_true, if_neg hd]
      rw [List.getLast?_eq_getLast _ hd]
    · have h1 : (gs.deck.getLast hd :: (gs.deck.dropLast ++ gs.discards)).Perm
          (gs.deck.dropLast ++ gs.deck.getLast hd :: gs.discards) := List.perm_middle.symm
      have h2 : gs.deck.dropLast ++ gs.deck.getLast hd :: gs.discards
          = (gs.deck.dropLast ++ [gs.deck.getLast hd]) ++ gs.discards := by
        rw [List.append_assoc]
        rfl
      rw [h2, List.dropLast_append_getLast hd] at h1
      exact h1

lemma draw_card_all_cards (σ : List Card → List Card) (gs : GameState) :
    ∀ c gs', gs.draw_card σ = some (c, gs') → gs'.all_cards = gs.all_cards := by
  intro c gs' h
  simp only [GameState.draw_card] at h
  split at h
  · exact absurd h (by simp)
  · simp only [Option.some.injEq, Prod.mk.injEq] at h
    rw [← h.2]

lemma update_all_cards (σ : List Card → List Card) (text : List Char)
    (input : Input) (now : ℤ) (g : GameState) (t : TurnState) (ct : CurrentTurn) :
    ∀ g' t' ct', TabooApp.update σ text input now (.InGame g t ct) = some (.InGame g' t' ct') →
      g'.all_cards = g.all_cards := by
  intro g' t' ct' h
  cases t with
  | ReadyingUp =>
    simp only [TabooApp.update] at h
    split_ifs at h <;> try split at h
    all_goals try exact Option.noConfusion h
    all_goals try injection h with h0
    all_goals try exact TabooApp.noConfusion h0
    all_goals try injection h0 with e1 e2 e3
    all_goals try rw [← e1]
    all_goals exact draw_card_all_cards σ g _ _ (by assumption)
  | Playing start_time card results =>
    simp only [TabooApp.update] at h
    split_ifs at h <;> try split at h
    all_goals try exact Option.noConfusion h
    all_goals try injection h with h0
    all_goals try exact TabooApp.noConfusion h0
    all_goals try injection h0 with e1 e2 e3
    all_goals try rw [← e1]
    all_goals exact draw_card_all_cards σ g _ _ (by assumption)
  | TurnEnded results showing =>
    simp only [TabooApp.update] at h
    split_ifs at h
    all_goals try exact Option.noConfusion h
    all_goals try injection h with h0
    all_goals try exact TabooApp.noConfusion h0
    all_goals try injection h0 with e1 e2 e3
    all_goals try rw [← e1]
    all_goals exact creditResults_all_cards ct results g

/-- Claim C9 (draw_card totality): with a length-preserving shuffle and a
non-empty retained pool, `draw_card` always succeeds — an empty draw pile is
replenished from the reshuffled discards, and if both are empty from the
retained full pool — and the retained pool itself is never changed by a draw
nor by any in-game tick. -/
theorem draw_card_total (σ : List Card → List Card) (gs : GameState)
    (hσ : ∀ l, (σ l).length = l.length) (hpool : gs.all_cards ≠ []) :
    (gs.draw_card σ).isSome = true ∧
    (∀ c gs', gs.draw_card σ = some (c, gs') → gs'.all_cards = gs.all_cards) ∧
    (∀ text input now g t ct g' t' ct',
      TabooApp.update σ text input now (.InGame g t ct) = some (.InGame g' t' ct') →
        g'.all_cards = g.all_cards) := by
  refine ⟨?_, draw_card_all_cards σ gs, ?_⟩
  · have hne : ¬(if (if gs.deck.isEmpty then (σ gs.discards, gs.deck) else
        (gs.deck, gs.discards)).1.isEmpty then σ gs.all_cards else
        (if gs.deck.isEmpty then (σ gs.discards, gs.deck) else (gs.deck, gs.discards)).1) = [] := by
      split_ifs with h1 h2 h3 <;> intro he <;>
        first
          | exact hpool (List.eq_nil_of_length_eq_zero (by rw [← hσ gs.all_cards, he]; rfl))
          | simp_all
    simp only [GameState.draw_card]
    rw [List.getLast?_eq_getLast _ hne]
    rfl
  · intro text input now g t ct g' t' ct' h
    exact update_all_cards σ text input now g t ct g' t' ct' h

/-- Witness for C9 at a concrete state with an empty draw pile and empty
discards: the draw falls back to the retained pool and succeeds. -/
theorem draw_card_total_witness :
    (gsSample.draw_card id).isSome = true :=
  (draw_card_total id gsSample (fun _ => rfl) (by decide)).1

/-! ### Turn end and review navigation -/

/-- Counterexample to claim C4 as stated: at a tick where the remaining
time is exactly 0 (`now = 60`, `start_time = 0`) and no button is pressed,
the engine stays in `Playing` — the code tests `remaining < 0.0`, so a
remaining time of exactly 0 does not end the turn, contradicting the
claimed `remaining ≤ 0` trigger. -/
theorem turn_end_boundary_counterexample :
    (60 : ℤ) - (60 - 0) ≤ 0 ∧
    TabooApp.update id [] {} 60 (.InGame gsSample (.Playing 0 cardA []) (.Team 0))
      = some (.InGame gsSample (.Playing 0 cardA []) (.Team 0)) :=
  ⟨by decide, by decide⟩

/-- Claim C4 as amended: in the `Playing` state, whenever the remaining time
is strictly negative or the explicit end-turn action fires, the in-play card
is appended to the history with outcome `Timeout` and the state becomes
`TurnEnded` with cursor `history.length - 1`; a tick at which the remaining
time is exactly 0 leaves the turn running. -/
theorem turn_end_transition (σ : List Card → List Card) (text : List Char)
    (input : Input) (now : ℤ) (g : GameState) (ct : CurrentTurn)
    (start_time : ℤ) (card : Card) (results : List (Card × CardResult))
    (h : 60 - (now - start_time) < 0 ∨ input.menuR = true) :
    TabooApp.update σ text input now (.InGame g (.Playing start_time card results) ct)
      = some (.InGame g
          (.TurnEnded (results ++ [(card, CardResult.Timeout)])
            ((results ++ [(card, CardResult.Timeout)]).length - 1)) ct) := by
  have hb : (decide (60 - (now - start_time) < 0) || input.menuR) = true := by
    rcases h with h | h
    · simp [h]
    · simp [h]
  simp only [TabooApp.update]
  rw [if_pos hb]

/-- Witness for C4 (amended) with the explicit end-turn button pressed. -/
theorem turn_end_transition_witness :
    TabooApp.update id [] { menuR := true } 0
        (.InGame gsSample (.Playing 0 cardA []) (.Team 0))
      = some (.InGame gsSample (.TurnEnded [(cardA, .Timeout)] 0) (.Team 0)) :=
  turn_end_transition id [] { menuR := true } 0 gsSample (.Team 0) 0 cardA [] (Or.inr rfl)

/-- The review-navigation input pressing only "next". -/
def inputNext : Input := { povRight := true }

/-- The review-navigation input pressing only "previous". -/
def inputPrev : Input := { povLeft := true }

lemma update_next (σ : List Card → List Card) (text : List Char) (now : ℤ)
    (g : GameState) (res : List (Card × CardResult)) (sh : Nat) (ct : CurrentTurn)
    (h : sh < res.length) :
    TabooApp.update σ text inputNext now (.InGame g (.TurnEnded res sh) ct)
      = some (.InGame g (.TurnEnded res (min (sh + 1) (res.length - 1))) ct) := by
  simp only [TabooApp.update, inputNext]
  norm_num
  split_ifs with h1 <;> [skip; skip] <;> congr 1 <;> omega

lemma update_prev (σ : List Card → List Card) (text : List Char) (now : ℤ)
    (g : GameState) (res : List (Card × CardResult)) (sh : Nat) (ct : CurrentTurn) :
    TabooApp.update σ text inputPrev now (.InGame g (.TurnEnded res sh) ct)
      = some (.InGame g (.TurnEnded res (sh - 1)) ct) := by
  simp only [TabooApp.update, inputPrev]
  norm_num

lemma updateN_next (σ : List Card → List Card) (text : List Char) (now : ℤ)
    (g : GameState) (res : List (Card × CardResult)) (ct : CurrentTurn) :
    ∀ k sh, sh < res.length →
      TabooApp.updateN σ text inputNext now k (.InGame g (.TurnEnded res sh) ct)
        = some (.InGame g (.TurnEnded res (min (sh + k) (res.length - 1))) ct) := by
  intro k
  induction k with
  | zero =>
    intro sh h
    simp only [TabooApp.updateN]
    have e : min (sh + 0) (res.length - 1) = sh := by omega
    rw [e]
  | succ k ih =>
    intro sh h
    have hs : min (sh + 1) (res.length - 1) < res.length := by omega
    simp only [TabooApp.updateN]
    rw [update_next σ text now g res sh ct h]
    simp only [Option.some_bind]
    rw [ih _ hs]
    have e : min (min (sh + 1) (res.length - 1) + k) (res.length - 1)
        = min (sh + (k + 1)) (res.length - 1) := by omega
    rw [e]

lemma updateN_prev (σ : List Card → List Card) (text : List Char) (now : ℤ)
    (g : GameState) (res : List (Card × CardResult)) (ct : CurrentTurn) :
    ∀ k sh,
      TabooApp.updateN σ text inputPrev now k (.InGame g (.TurnEnded res sh) ct)
        = some (.InGame g (.TurnEnded res (sh - k)) ct) := by
  intro k
  induction k with
  | zero =>
    intro sh
    simp only [TabooApp.updateN, Nat.sub_zero]
  | succ k ih =>
    intro sh
    simp only [TabooApp.updateN]
    rw [update_prev σ text now g res sh ct]
    simp only [Option.some_bind]
    rw [ih (sh - 1)]
    have e : sh - 1 - k = sh - (k + 1) := by omega
    rw [e]

/-- Claim C6 (review cursor clamping): in `TurnEnded` with history length
`L ≥ 1` and a cursor in bounds, `k` consecutive "next" ticks leave the
cursor at `min (sh + k) (L - 1)` — so it never exceeds `L - 1` and sticks
there — and `k` consecutive "previous" ticks leave it at `sh - k` in ℕ —
so it never drops below 0 and sticks there; there is no wraparound in
either direction. -/
theorem review_cursor_clamping (σ : List Card → List Card) (text : List Char)
    (now : ℤ) (g : GameState) (res : List (Card × CardResult)) (sh : Nat)
    (ct : CurrentTurn) (h : sh < res.length) :
    (∀ k, TabooApp.updateN σ text inputNext now k (.InGame g (.TurnEnded res sh) ct)
        = some (.InGame g (.TurnEnded res (min (sh + k) (res.length - 1))) ct)) ∧
    (∀ k, TabooApp.updateN σ text inputPrev now k (.InGame g (.TurnEnded res sh) ct)
        = some (.InGame g (.TurnEnded res (sh - k)) ct)) :=
  ⟨fun k => updateN_next σ text now g res ct k sh h,
   fun k => updateN_prev σ text now g res ct k sh⟩

/-- Witness for C6: three "next" ticks on a two-entry history stick at
cursor 1, and five "previous" ticks stick at cursor 0. -/
theorem review_cursor_clamping_witness :
    TabooApp.updateN id [] inputNext 0 3
        (.InGame gsSample (.TurnEnded [(cardA, .Won), (cardB, .Timeout)] 0) (.Team 0))
      = some (.InGame gsSample
          (.TurnEnded [(cardA, .Won), (cardB, .Timeout)]
            (min (0 + 3) ([(cardA, CardResult.Won), (cardB, CardResult.Timeout)].length - 1)))
          (.Team 0)) ∧
    TabooApp.updateN id [] inputPrev 0 5
        (.InGame gsSample (.TurnEnded [(cardA, .Won), (cardB, .Timeout)] 1) (.Team 0))
      = some (.InGame gsSample (.TurnEnded [(cardA, .Won), (cardB, .Timeout)] (1 - 5)) (.Team 0)) :=
  ⟨(review_cursor_clamping id [] 0 gsSample [(cardA, .Won), (cardB, .Timeout)] 0 (.Team 0)
      (by decide)).1 3,
   (review_cursor_clamping id [] 0 gsSample [(cardA, .Won), (cardB, .Timeout)] 1 (.Team 0)
      (by decide)).2 5⟩

/-! ### Reachability invariant -/

lemma draw_card_num_players (σ : List Card → List Card) (gs : GameState) :
    ∀ c gs', gs.draw_card σ = some (c, gs') → gs'.num_players = gs.num_players := by
  intro c gs' h
  simp only [GameState.draw_card] at h
  split at h
  · exact absurd h (by simp)
  · simp only [Option.some.injEq, Prod.mk.injEq] at h
    rw [← h.2]

/-- The inductive state invariant: the menu's player count never drops below
2; in game, the session's `num_players` is at least 2 and any `TurnEnded`
state has a non-empty history whose last outcome is `Timeout`, with the
review cursor in bounds. -/
def StateInv : TabooApp → Prop
  | .Menu p _ => 2 ≤ p
  | .InGame g t _ =>
    2 ≤ g.num_players ∧
    (∀ res sh, t = .TurnEnded res sh →
      res ≠ [] ∧ sh < res.length ∧ (res.map Prod.snd).getLast? = some .Timeout)

lemma update_preserves_inv (σ : List Card → List Card) (text : List Char)
    (input : Input) (now : ℤ) (a a' : TabooApp)
    (hinv : StateInv a) (h : TabooApp.update σ text input now a = some a') :
    StateInv a' := by
  cases a with
  | Menu p tm =>
    simp only [StateInv] at hinv
    simp only [TabooApp.update] at h
    split_ifs at h <;> injection h with h0 <;> rw [← h0] <;> simp only [StateInv]
    all_goals try refine ⟨?_, fun res sh heq => TurnState.noConfusion heq⟩
    all_goals try simp only [GameState.new]
    all_goals omega
  | InGame g t ct =>
    simp only [StateInv] at hinv
    obtain ⟨hn, hte⟩ := hinv
    cases t with
    | ReadyingUp =>
      simp only [TabooApp.update] at h
      split_ifs at h <;> try split at h
      all_goals try exact Option.noConfusion h
      all_goals injection h with h0
      all_goals rw [← h0]
      all_goals simp only [StateInv]
      all_goals first
        | (refine ⟨?_, fun res sh heq => TurnState.noConfusion heq⟩
           first
             | (rw [draw_card_num_players σ g _ _ (by assumption)]; exact hn)
             | exact hn)
        | (rw [draw_card_num_players σ g _ _ (by assumption)]; exact hn)
        | exact hn
    | Playing start_time card results =>
      simp only [TabooApp.update] at h
      split_ifs at h <;> try split at h
      all_goals try exact Option.noConfusion h
      all_goals injection h with h0
      all_goals rw [← h0]
      all_goals simp only [StateInv]
      all_goals first
        | (refine ⟨hn, ?_⟩
           rintro res sh heq
           injection heq with e1 e2
           subst e1
           subst e2
           refine ⟨by simp, by simp, ?_⟩
           rw [List.map_append]
           exact List.getLast?_concat _)
        | (refine ⟨?_, fun res sh heq => TurnState.noConfusion heq⟩
           first
             | (rw [draw_card_num_players σ g _ _ (by assumption)]; exact hn)
             | exact hn)
    | TurnEnded results showing =>
      obtain ⟨hne, hlt, hlast⟩ := hte results showing rfl
      have hp := List.length_pos.mpr hne
      simp only [TabooApp.update] at h
      split_ifs at h
      all_goals injection h with h0
      all_goals rw [← h0]
      all_goals simp only [StateInv]
      all_goals first
        | (refine ⟨?_, fun res sh heq => TurnState.noConfusion heq⟩
           rw [creditResults_num_players]
           exact hn)
        | (refine ⟨hn, ?_⟩
           rintro res sh heq
           injection heq with e1 e2
           subst e1
           subst e2
           exact ⟨hne, by omega, hlast⟩)

/-- Every reachable app state satisfies the state invariant. -/
lemma reach_inv (text : List Char) (a : TabooApp) (h : Reach text a) : StateInv a := by
  induction h with
  | init => exact Nat.le_refl 2
  | step σ input now hr heq ih => exact update_preserves_inv σ text input now _ _ ih heq

/-- Claim C5 (turn-end history invariant): in every reachable `TurnEnded`
state the history is non-empty, its last appended entry has outcome
`Timeout` (the only way to enter `TurnEnded` appends the in-play card with
`Timeout` first), and the review cursor is strictly within bounds, so
indexing the history at the cursor cannot go out of bounds. -/
theorem turn_end_history_invariant (text : List Char) (a : TabooApp) (h : Reach text a) :
    ∀ g res sh ct, a = .InGame g (.TurnEnded res sh) ct →
      res ≠ [] ∧ sh < res.length ∧ (res.map Prod.snd).getLast? = some .Timeout := by
  intro g res sh ct ha
  have hi := reach_inv text a h
  rw [ha] at hi
  exact hi.2 res sh rfl

/-- A two-card dataset used by the reachability witnesses. -/
def textAB : List Char := ['a', '\n', 'b']

/-- The session state after starting a team game on `textAB` (identity
shuffle). -/
def app1 : TabooApp :=
  .InGame
    { num_players := 2, teams := true, deck := [cardA, cardB], discards := [],
      won_cards := [[], []], all_cards := [cardA, cardB] }
    .ReadyingUp (.Team 0)

/-- The deck state after one draw from `app1`. -/
def gameAB : GameState :=
  { num_players := 2, teams := true, deck := [cardA], discards := [],
    won_cards := [[], []], all_cards := [cardA, cardB] }

/-- The state after drawing a card and starting the turn. -/
def app2 : TabooApp := .InGame gameAB (.Playing 0 cardB []) (.Team 0)

/-- The state after ending the turn explicitly. -/
def appTE : TabooApp := .InGame gameAB (.TurnEnded [(cardB, .Timeout)] 0) (.Team 0)

lemma reach_appTE : Reach textAB appTE := by
  have h1 : Reach textAB app1 :=
    Reach.step id { menuR := true } 0 Reach.init (by decide)
  have h2 : Reach textAB app2 :=
    Reach.step id { actionA := true } 0 h1 (by decide)
  exact Reach.step id { menuR := true } 0 h2 (by decide)

/-- Witness for C5 at the concrete reachable `TurnEnded` state `appTE`. -/
theorem turn_end_history_invariant_witness :
    [(cardB, CardResult.Timeout)] ≠ [] ∧ 0 < [(cardB, CardResult.Timeout)].length ∧
      ([(cardB, CardResult.Timeout)].map Prod.snd).getLast? = some CardResult.Timeout :=
  turn_end_history_invariant textAB appTE reach_appTE gameAB [(cardB, .Timeout)] 0 (.Team 0) rfl

/-- Claim C10 (menu party-count invariant): starting from the default
configuration, every reachable menu state has at least 2 players — so the
menu decrement, an unsigned subtraction, never underflows — every reachable
session has `num_players ≥ 2`, and any session constructed from a reachable
menu starts at `Team 0` or at `Player 0 1` with distinct indices inside
`[0, num_players)`. -/
theorem menu_party_count_invariant (text : List Char) (a : TabooApp) (h : Reach text a) :
    (∀ p tm, a = .Menu p tm → 2 ≤ p ∧ p - 1 + 1 = p) ∧
    (∀ g t ct, a = .InGame g t ct → 2 ≤ g.num_players) ∧
    (∀ σ input now a' p tm, a = .Menu p tm →
      TabooApp.update σ text input now a = some a' →
      ∀ g t ct, a' = .InGame g t ct →
        2 ≤ g.num_players ∧
        (ct = .Team 0 ∨ (ct = .Player 0 1 ∧ (0 : Nat) ≠ 1 ∧ 1 < g.num_players))) := by
  refine ⟨?_, ?_, ?_⟩
  · intro p tm ha
    have hi := reach_inv text a h
    rw [ha] at hi
    simp only [StateInv] at hi
    exact ⟨hi, by omega⟩
  · intro g t ct ha
    have hi := reach_inv text a h
    rw [ha] at hi
    exact hi.1
  · intro σ input now a' p tm ha hstep g t ct ha'
    have hp : 2 ≤ p := by
      have hi := reach_inv text a h
      rw [ha] at hi
      exact hi
    subst ha
    subst ha'
    simp only [TabooApp.update] at hstep
    split_ifs at hstep
    all_goals injection hstep with h0
    all_goals try exact TabooApp.noConfusion h0
    all_goals injection h0 with e1 e2 e3
    all_goals subst e1
    all_goals subst e3
    all_goals refine ⟨by simp only [GameState.new]; omega, ?_⟩
    all_goals first
      | exact Or.inl rfl
      | exact Or.inr ⟨rfl, by decide, by simp only [GameState.new]; omega⟩

/-- Witness for C10 at the initial (default) menu state. -/
theorem menu_party_count_invariant_witness :
    2 ≤ 2 ∧ 2 - 1 + 1 = 2 :=
  (menu_party_count_invariant [] TabooApp.default Reach.init).1 2 true rfl

/-! ### Loading and deduplication -/

lemma dedupAux_len : ∀ (l acc : List Card) (diags : List Diag),
    (dedupCardsAux l acc diags).1.length + (dedupCardsAux l acc diags).2.length
      = acc.length + diags.length + l.length := by
  intro l
  induction l with
  | nil => intro acc diags; simp [dedupCardsAux]
  | cons e l ih =>
    intro acc diags
    simp only [dedupCardsAux]
    split_ifs <;> rw [ih] <;> simp <;> omega

lemma dedupAux_mem : ∀ (l acc : List Card) (diags : List Diag) (c : Card),
    c ∈ (dedupCardsAux l acc diags).1 ↔
      c ∈ acc ∨ ((c.word.contains ' ' || c.word.contains '-') = false ∧
        (∀ d ∈ acc, d.word ≠ c.word) ∧
        l.find? (fun d => decide (d.word = c.word)) = some c) := by
  intro l
  induction l with
  | nil =>
    intro acc diags c
    simp [dedupCardsAux]
  | cons e l ih =>
    intro acc diags c
    simp only [dedupCardsAux]
    split_ifs with h1 h2
    · -- e's word already present in acc: e is dropped as a duplicate
      rw [ih]
      simp only [List.any_eq_true, decide_eq_true_eq] at h1
      obtain ⟨d0, hd0, hw0⟩ := h1
      by_cases hw : e.word = c.word
      · constructor
        · rintro (hc | ⟨hv, hall, hf⟩)
          · exact Or.inl hc
          · exact absurd (hw0.trans hw) (hall d0 hd0)
        · rintro (hc | ⟨hv, hall, hf⟩)
          · exact Or.inl hc
          · exact absurd (hw0.trans hw) (hall d0 hd0)
      · rw [List.find?_cons_of_neg]
        simp only [decide_eq_true_eq]
        exact hw
    · -- e is a multi-word card: dropped with a diagnostic
      rw [ih]
      by_cases hw : e.word = c.word
      · constructor
        · rintro (hc | ⟨hv, hall, hf⟩)
          · exact Or.inl hc
          · rw [← hw] at hv
            rw [h2] at hv
            exact absurd hv (by simp)
        · rintro (hc | ⟨hv, hall, hf⟩)
          · exact Or.inl hc
          · rw [← hw] at hv
            rw [h2] at hv
            exact absurd hv (by simp)
      · rw [List.find?_cons_of_neg]
        simp only [decide_eq_true_eq]
        exact hw
    · -- e is new and valid: inserted
      rw [ih]
      simp only [List.any_eq_true, decide_eq_true_eq, not_exists, not_and] at h1
      have h1' : ∀ d ∈ acc, d.word ≠ e.word := by
        intro d hd he
        exact h1 d hd he
      by_cases hce : c = e
      · subst hce
        simp only [List.mem_append, List.mem_singleton]
        constructor
        · intro _
          by_cases hc : c ∈ acc
          · exact Or.inl hc
          · refine Or.inr ⟨by simpa using h2, h1', ?_⟩
            rw [List.find?_cons_of_pos]
            simp
        · intro _
          exact Or.inl (Or.inr (by simp))
      · by_cases hw : e.word = c.word
        · constructor
          · rintro (hc | ⟨hv, hall, hf⟩)
            · rcases List.mem_append.mp hc with hc | hc
              · exact Or.inl hc
              · exact absurd (List.mem_singleton.mp hc) hce
            · exact absurd hw (fun hww => (hall e (by simp)) hww)
          · rintro (hc | ⟨hv, hall, hf⟩)
            · exact Or.inl (List.mem_append.mpr (Or.inl hc))
            · rw [List.find?_cons_of_pos] at hf
              · exact absurd (Option.some.inj hf).symm hce
              · simpa using hw
        · rw [List.find?_cons_of_neg]
          constructor
          · rintro (hc | ⟨hv, hall, hf⟩)
            · rcases List.mem_append.mp hc with hc | hc
              · exact Or.inl hc
              · exact absurd (List.mem_singleton.mp hc) hce
            · refine Or.inr ⟨hv, ?_, hf⟩
              intro d hd
              exact hall d (List.mem_append.mpr (Or.inl hd))
          · rintro (hc | ⟨hv, hall, hf⟩)
            · exact Or.inl (List.mem_append.mpr (Or.inl hc))
            · refine Or.inr ⟨hv, ?_, hf⟩
              intro d hd
              rcases List.mem_append.mp hd with hd | hd
              · exact hall d hd
              · rw [List.mem_singleton.mp hd]
                exact hw
          · simp only [decide_eq_true_eq]
            exact hw

/-- Claim C7 (load deduplication and multi-word exclusion): a card is in the
loaded pool exactly when its word contains neither a space nor a hyphen and
it is the first parsed line carrying its word — so the pool holds at most
one card per word, carrying the first such line's taboo list, and no
multi-word card; and every dropped line is accounted for by exactly one
diagnostic rather than an error (pool size plus diagnostic count equals the
parsed line count). -/
theorem load_dedup_and_exclusion (text : List Char) :
    (∀ c, c ∈ (dedupCards (parseCards text)).1 ↔
      ((c.word.contains ' ' || c.word.contains '-') = false ∧
        (parseCards text).find? (fun d => decide (d.word = c.word)) = some c)) ∧
    (parseCards text).length
      = (dedupCards (parseCards text)).1.length + (dedupCards (parseCards text)).2.length := by
  constructor
  · intro c
    rw [dedupCards, dedupAux_mem]
    simp
  · rw [dedupCards, dedupAux_len]
    simp

lemma splitChar_ne_nil (sep : Char) (l : List Char) : splitChar sep l ≠ [] := by
  cases l with
  | nil => simp [splitChar]
  | cons c rest =>
    simp only [splitChar]
    rcases splitChar sep rest with _ | ⟨h0, t0⟩
    · simp
    · split_ifs <;> simp

/-- Counterexample to claim C8 as stated: the spec's candidate failing
inputs — a line with no text before the comma, and a line blank after
trimming — load successfully (the blank line is filtered before parsing and
a leading comma yields an empty word field), so the claimed fatal-error
class is empty. -/
theorem fatal_load_error_counterexample :
    parseCardsOpt [',', 'a', '\n', ' ']
      = some [{ word := [], taboo := [['a']] }] := by decide

/-- Claim C8 as amended: the load operation never fails — splitting a line
on commas always yields at least one (possibly empty) word field and lines
blank after trimming are filtered out, so the fallible word extraction
always succeeds and agrees with the total parse. -/
theorem load_never_fails (text : List Char) :
    parseCardsOpt text = some (parseCards text) := by
  unfold parseCardsOpt parseCards
  generalize (((splitChar '\n' text).map trimChars).filter (fun l => !l.isEmpty)) = lines
  induction lines with
  | nil => rfl
  | cons line lines ih =>
    rw [List.map_cons, List.mapM_cons]
    have hne : (splitChar ',' line).map trimChars ≠ [] := by
      intro he
      exact splitChar_ne_nil ',' line (List.map_eq_nil_iff.mp he)
    rcases hl : (splitChar ',' line).map trimChars with _ | ⟨w, ws⟩
    · exact absurd hl hne
    · rw [ih]
      simp [hl]

/-! ### Card conservation -/

/-- A third sample card. -/
def cardC : Card := { word := ['c'], taboo := [] }

/-- A three-card dataset used by the conservation counterexample. -/
def textABC : List Char := ['a', '\n', 'b', '\n', 'c']

/-- Counterexample to claim C1 as stated: a concrete run — switch to player
mode, start a game on a three-card pool, start the turn, win one card, end
the turn, and confirm — reaches a quiescent state (no draw in flight, turn
in `ReadyingUp`) in which the cooperative crediting has pushed the won card
into both players' piles: the pile sizes sum to 4 against a pool of 3, and
the same card sits in two containers, so the claimed conservation predicate
evaluates to `false`. -/
theorem card_conservation_counterexample :
    (((((((TabooApp.update id textABC { menuL := true } 0 TabooApp.default).bind
        (TabooApp.update id textABC { menuR := true } 0)).bind
        (TabooApp.update id textABC { actionA := true } 0)).bind
        (TabooApp.update id textABC { actionA := true } 1)).bind
        (TabooApp.update id textABC { menuR := true } 2)).bind
        (TabooApp.update id textABC { actionA := true } 2)).map specConservationAt
      = some false) ∧
    ((((((TabooApp.update id textABC { menuL := true } 0 TabooApp.default).bind
        (TabooApp.update id textABC { menuR := true } 0)).bind
        (TabooApp.update id textABC { actionA := true } 0)).bind
        (TabooApp.update id textABC { actionA := true } 1)).bind
        (TabooApp.update id textABC { menuR := true } 2)).bind
        (TabooApp.update id textABC { actionA := true } 2)
      = some (.InGame
          { num_players := 2, teams := false, deck := [cardA], discards := [cardB],
            won_cards := [[cardC], [cardC]], all_cards := [cardA, cardB, cardC] }
          .ReadyingUp (.Player 1 0))) := by
  constructor
  · decide
  · decide

lemma flatten_replicate_nil (n : Nat) :
    (List.replicate n ([] : List Card)).flatten = [] := by
  induction n with
  | zero => rfl
  | succ n ih => simp [List.replicate, ih]

lemma flatten_pushWon (w : List (List Card)) :
    ∀ (i : Nat) (c : Card), i < w.length →
      ((pushWon w i c).flatten).Perm (w.flatten ++ [c]) := by
  induction w with
  | nil => intro i c h; simp at h
  | cons y ys ih =>
    intro i c h
    cases i with
    | zero =>
      simp only [pushWon, List.set_cons_zero, List.getD_cons_zero, List.flatten_cons]
      rw [List.append_assoc, List.append_assoc]
      exact List.Perm.append_left y List.perm_append_comm
    | succ i =>
      simp only [pushWon, List.set_cons_succ, List.getD_cons_succ, List.flatten_cons]
      rw [List.append_assoc]
      exact List.Perm.append_left y (ih i c (by simpa using h))

lemma credit_team_perm (t : Nat) :
    ∀ (rs : List (Card × CardResult)) (gs : GameState), t < gs.won_cards.length →
      ((↑(creditResults (.Team t) gs rs).discards
          + ↑(creditResults (.Team t) gs rs).won_cards.flatten : Multiset Card))
        = ↑gs.discards + ↑gs.won_cards.flatten + ↑(rs.map Prod.fst) := by
  intro rs
  induction rs with
  | nil =>
    intro gs ht
    simp [creditResults]
  | cons p rs ih =>
    intro gs ht
    rw [creditResults_cons,
      ih _ (by rw [creditOne_won_length]; exact ht), List.map_cons]
    cases hw : p.2.won
    · simp only [creditOne, hw, Bool.false_eq_true, if_false]
      simp only [← Multiset.coe_add, ← Multiset.cons_coe, ← Multiset.singleton_add,
        Multiset.coe_singleton]
      abel
    · simp only [creditOne, hw, if_true]
      have hpw := flatten_pushWon gs.won_cards t p.1 ht
      have hpw' : ((pushWon gs.won_cards t p.1).flatten : Multiset Card)
          = ↑gs.won_cards.flatten + {p.1} := by
        rw [Multiset.coe_eq_coe.mpr hpw]
        simp only [← Multiset.coe_add, Multiset.coe_singleton]
      rw [hpw']
      simp only [← Multiset.cons_coe, ← Multiset.singleton_add]
      abel

lemma multiset_confirm (d x2 f2 x f m all : Multiset Card)
    (hcred : x2 + f2 = x + f + m) (hinv : d + x + f + m = all) :
    d + x2 + f2 = all := by
  calc d + x2 + f2 = d + (x2 + f2) := by abel
    _ = d + (x + f + m) := by rw [hcred]
    _ = all := by rw [← hinv]; abel

/-- Claim C1 as amended: counting the cards held by the current turn (the
in-play card and the in-turn history) among the containers, conservation
holds in team mode as a multiset invariant: it is established when a session
starts, and it is preserved by every tick whose draws cannot hit the
terminal refill (draw and discard piles not both empty).  In player mode
the cooperative crediting pushes each won card into two piles, which
breaks the invariant (see the counterexample). -/
theorem card_conservation_team (σ : List Card → List Card)
    (hσ : ∀ l : List Card, (σ l).Perm l) :
    (∀ text n, (containers (GameState.new σ text n true) .ReadyingUp).Perm
        (GameState.new σ text n true).all_cards) ∧
    (∀ text input now g t tm g' t' ct',
      (g.deck ≠ [] ∨ g.discards ≠ []) →
      tm < g.won_cards.length →
      (containers g t).Perm g.all_cards →
      TabooApp.update σ text input now (.InGame g t (.Team tm)) = some (.InGame g' t' ct') →
      (containers g' t').Perm g'.all_cards) := by
  constructor
  · intro text n
    simp [containers, GameState.new, inPlayCards, flatten_replicate_nil]
  · intro text input now g t tm g' t' ct' hnorefill htm hinv hstep
    obtain ⟨c0, gs0, hd, hperm, hwon, hall, hnum, hteams⟩ := draw_card_spec σ hσ g hnorefill
    have hperm' : ({c0} + (↑gs0.deck + ↑gs0.discards) : Multiset Card)
        = ↑g.deck + ↑g.discards := by
      rw [← Multiset.coe_eq_coe] at hperm
      simp only [← Multiset.coe_add, ← Multiset.cons_coe, ← Multiset.singleton_add] at hperm
      exact hperm
    cases t with
    | ReadyingUp =>
      simp only [TabooApp.update, hd] at hstep
      split_ifs at hstep
      all_goals injection hstep with h0
      all_goals try exact TabooApp.noConfusion h0
      all_goals injection h0 with e1 e2 e3
      all_goals subst e1
      all_goals subst e2
      all_goals first
        | exact hinv
        | (rw [hall, ← Multiset.coe_eq_coe]
           rw [← Multiset.coe_eq_coe] at hinv
           simp only [containers, inPlayCards, List.map_nil, List.map_cons, List.map_append,
             List.append_nil, hwon, ← Multiset.coe_add, ← Multiset.cons_coe,
             ← Multiset.singleton_add, Multiset.coe_nil, add_zero] at hinv ⊢
           rw [← hperm'] at hinv
           rw [← hinv]
           abel)
    | Playing start_time card results =>
      simp only [TabooApp.update, hd] at hstep
      split_ifs at hstep
      all_goals injection hstep with h0
      all_goals injection h0 with e1 e2 e3
      all_goals subst e1
      all_goals subst e2
      all_goals first
        | exact hinv
        | (rw [← Multiset.coe_eq_coe]
           rw [← Multiset.coe_eq_coe] at hinv
           simp only [containers, inPlayCards, List.map_nil, List.map_cons, List.map_append,
             List.append_nil, ← Multiset.coe_add, ← Multiset.cons_coe,
             ← Multiset.singleton_add, Multiset.coe_nil, add_zero] at hinv ⊢
           rw [← hinv]
           abel)
        | (rw [hall, ← Multiset.coe_eq_coe]
           rw [← Multiset.coe_eq_coe] at hinv
           simp only [containers, inPlayCards, List.map_nil, List.map_cons, List.map_append,
             List.append_nil, hwon, ← Multiset.coe_add, ← Multiset.cons_coe,
             ← Multiset.singleton_add, Multiset.coe_nil, add_zero] at hinv ⊢
           rw [← hperm'] at hinv
           rw [← hinv]
           abel)
    | TurnEnded results showing =>
      simp only [TabooApp.update] at hstep
      split_ifs at hstep
      all_goals injection hstep with h0
      all_goals injection h0 with e1 e2 e3
      all_goals subst e1
      all_goals subst e2
      all_goals first
        | exact hinv
        | (rw [creditResults_all_cards, ← Multiset.coe_eq_coe]
           rw [← Multiset.coe_eq_coe] at hinv
           simp only [containers, inPlayCards, creditResults_deck, List.map_nil, List.map_cons,
             List.map_append, List.append_nil, ← Multiset.coe_add, ← Multiset.cons_coe,
             ← Multiset.singleton_add, Multiset.coe_nil, add_zero] at hinv ⊢
           exact multiset_confirm _ _ _ _ _ _ _ (credit_team_perm tm results g htm) hinv)

/-- Witness for C1 (amended) at a concrete session start with the identity
shuffle. -/
theorem card_conservation_team_witness :
    (containers (GameState.new id textAB 2 true) .ReadyingUp).Perm
      (GameState.new id textAB 2 true).all_cards :=
  (card_conservation_team id (fun l => List.Perm.refl l)).1 textAB 2
